import Mathlib

/-!
Verification of the trace ingestion and indexing engine of the EvoSep data
viewer (src/app.py). Python string primitives are shallowly embedded over
Lean `String`/`List Char`; Python floats are modelled as rationals `ℚ`
(the decimal literals occurring in trace files are exact), Python `None`
as `Option.none`, and an uncaught Python exception as `Except.error`
carrying the exception name. `int(...)`/`float(...)` are modelled for
decimal notation (sign, digits, decimal point, exponent), which covers the
grammar of the instrument files; exotic Python acceptances (underscore
grouping, `inf`/`nan`, non-ASCII digits) are outside the model. Rationals
are built with `mkRat` over integer arithmetic so that every embedded
function evaluates by `decide`; the arithmetic formulas of the spec are
recovered as proved characterizations.
-/

set_option maxRecDepth 20000

/-- Whitespace characters removed by Python `str.strip()` (ASCII subset). -/
def isPySpace (c : Char) : Bool :=
  c = ' ' || c = '\t' || c = '\n' || c = '\x0d' || c = '\x0b' || c = '\x0c'

/-- Characters of a string with leading and trailing whitespace removed,
mirroring Python `str.strip()`. -/
def pyStripChars (l : List Char) : List Char :=
  ((l.dropWhile isPySpace).reverse.dropWhile isPySpace).reverse

/-- Python `str.strip()`. -/
def pyStrip (s : String) : String := ⟨pyStripChars s.data⟩

/-- Python `str.split(sep)` for a one-character separator, on character
lists; `"".split(sep)` is `[""]`, as in Python. -/
def pySplitChars (sep : Char) : List Char → List (List Char)
  | [] => [[]]
  | c :: rest =>
    match pySplitChars sep rest with
    | [] => [[]]
    | h :: t => if c = sep then [] :: h :: t else (c :: h) :: t

/-- Python `str.split(sep)` for a one-character separator. -/
def pySplitStr (sep : Char) (s : String) : List String :=
  (pySplitChars sep s.data).map (fun l => ⟨l⟩)

/-- Value of a digit string, most significant first (callers check the
characters are digits). -/
def digitsToNat : List Char → Nat → Nat
  | [], acc => acc
  | c :: rest, acc => digitsToNat rest (acc * 10 + (c.toNat - 48))

/-- A nonempty all-digit character list parsed to a natural number. -/
def parseDigits (l : List Char) : Option Nat :=
  if l ≠ [] ∧ l.all Char.isDigit then some (digitsToNat l 0) else none

/-- Python `int(s)` on a string: optional surrounding whitespace, optional
sign, then decimal digits; `ValueError` is `none`. -/
def pyInt (s : String) : Option Int :=
  match pyStripChars s.data with
  | '+' :: rest => (parseDigits rest).map Int.ofNat
  | '-' :: rest => (parseDigits rest).map (fun n => -(n : Int))
  | l => (parseDigits l).map Int.ofNat

/-- Exponent suffix of a Python float literal, applied to an unsigned
numerator/denominator pair: optional sign and digits, scaling by the
corresponding power of ten. -/
def pyExpParts (num den : Nat) (l : List Char) : Option (Nat × Nat) :=
  match l with
  | '+' :: rest => (parseDigits rest).map (fun e => (num * 10 ^ e, den))
  | '-' :: rest => (parseDigits rest).map (fun e => (num, den * 10 ^ e))
  | rest => (parseDigits rest).map (fun e => (num * 10 ^ e, den))

/-- Unsigned body of a Python float literal, as an exact
numerator/denominator pair: digits, optional decimal point with optional
fractional digits, optional exponent. -/
def pyFloatCore (l : List Char) : Option (Nat × Nat) :=
  let ip := l.takeWhile Char.isDigit
  let rest := l.dropWhile Char.isDigit
  match rest with
  | [] => if ip = [] then none else some (digitsToNat ip 0, 1)
  | '.' :: rest2 =>
    let fp := rest2.takeWhile Char.isDigit
    let rest3 := rest2.dropWhile Char.isDigit
    if ip = [] ∧ fp = [] then none
    else
      let num := digitsToNat ip 0 * 10 ^ fp.length + digitsToNat fp 0
      let den := 10 ^ fp.length
      match rest3 with
      | [] => some (num, den)
      | 'e' :: rest4 => pyExpParts num den rest4
      | 'E' :: rest4 => pyExpParts num den rest4
      | _ => none
  | 'e' :: rest2 => if ip = [] then none else pyExpParts (digitsToNat ip 0) 1 rest2
  | 'E' :: rest2 => if ip = [] then none else pyExpParts (digitsToNat ip 0) 1 rest2
  | _ => none

/-- Python `float(s)` on a string, as an exact rational: optional
surrounding whitespace, optional sign, then a decimal float literal;
`ValueError` is `none`. -/
def pyFloat (s : String) : Option ℚ :=
  match pyStripChars s.data with
  | '+' :: rest => (pyFloatCore rest).map (fun p => mkRat p.1 p.2)
  | '-' :: rest => (pyFloatCore rest).map (fun p => mkRat (-(p.1 : Int)) p.2)
  | l => (pyFloatCore l).map (fun p => mkRat p.1 p.2)

/-- Time Codec `parse_time_to_seconds` (src/app.py:49-66): split on `:`,
read hours and minutes with `int` and seconds with `float`, and return
`hours*3600 + minutes*60 + seconds`; a `ValueError` or `IndexError`
(fewer than three parts, or a non-numeric part) is caught and yields
`None`, so the function never raises on a string argument. The sum is
built here as one exact rational over the denominator of the seconds;
`ratIntAdd_eq` below shows it equals `hours*3600 + minutes*60 + seconds`
in `ℚ`. -/
def parse_time_to_seconds (time_str : String) : Option ℚ :=
  if 3 ≤ (pySplitStr ':' time_str).length then
    match pyInt ((pySplitStr ':' time_str).getD 0 ""),
          pyInt ((pySplitStr ':' time_str).getD 1 ""),
          pyFloat ((pySplitStr ':' time_str).getD 2 "") with
    | some hrs, some mins, some secs =>
        some (mkRat ((hrs * 3600 + mins * 60) * (secs.den : Int) + secs.num) secs.den)
    | _, _, _ => none
  else none

theorem ratIntAdd_eq (a : Int) (q : ℚ) :
    mkRat (a * (q.den : Int) + q.num) q.den = (a : ℚ) + q := by
  have hd : (q.den : ℚ) ≠ 0 := Nat.cast_ne_zero.mpr q.den_nz
  rw [Rat.mkRat_eq_div]
  push_cast
  rw [add_div, mul_div_cancel_right₀ _ hd, Rat.num_div_den]

theorem parse_time_of_parts (s : String) (hrs mins : Int) (secs : ℚ)
    (hlen : 3 ≤ (pySplitStr ':' s).length)
    (h0 : pyInt ((pySplitStr ':' s).getD 0 "") = some hrs)
    (h1 : pyInt ((pySplitStr ':' s).getD 1 "") = some mins)
    (h2 : pyFloat ((pySplitStr ':' s).getD 2 "") = some secs) :
    parse_time_to_seconds s = some ((hrs : ℚ) * 3600 + (mins : ℚ) * 60 + secs) := by
  unfold parse_time_to_seconds
  rw [if_pos hlen, h0, h1, h2]
  show some (mkRat ((hrs * 3600 + mins * 60) * (secs.den : Int) + secs.num) secs.den) = _
  rw [ratIntAdd_eq]
  simp only [Option.some.injEq]
  push_cast
  ring

theorem parse_time_short (s : String) (hlen : (pySplitStr ':' s).length < 3) :
    parse_time_to_seconds s = none := by
  unfold parse_time_to_seconds
  rw [if_neg (by omega)]

theorem parse_time_bad_part (s : String)
    (h : pyInt ((pySplitStr ':' s).getD 0 "") = none ∨
         pyInt ((pySplitStr ':' s).getD 1 "") = none ∨
         pyFloat ((pySplitStr ':' s).getD 2 "") = none) :
    parse_time_to_seconds s = none := by
  unfold parse_time_to_seconds
  by_cases hlen : 3 ≤ (pySplitStr ':' s).length
  · rw [if_pos hlen]
    rcases h with h | h | h
    · rw [h]
    · rw [h]
      cases pyInt ((pySplitStr ':' s).getD 0 "") <;> rfl
    · rw [h]
      cases pyInt ((pySplitStr ':' s).getD 0 "") <;>
        cases pyInt ((pySplitStr ':' s).getD 1 "") <;> rfl
  · rw [if_neg hlen]

/-- C3: the Time Codec never raises: it returns the total seconds
`hours*3600 + minutes*60 + seconds` when the string has at least three
colon-delimited parts whose first two parse as Python ints and whose third
parses as a Python float, and the failure sentinel `none` when there are
fewer than three parts or a needed part is not numeric; in particular
`"01:02:03.5" ↦ 3723.5`, `"00:00:00.000" ↦ 0.0`, and `"bad"` and `"1:2"`
yield the sentinel. (Totality of the Lean function embeds the absence of
exceptions: `ValueError`/`IndexError` are the only exceptions the body can
raise on a string, and both are caught.) -/
theorem timeCodec_spec :
    (∀ (s : String) (hrs mins : Int) (secs : ℚ),
        3 ≤ (pySplitStr ':' s).length →
        pyInt ((pySplitStr ':' s).getD 0 "") = some hrs →
        pyInt ((pySplitStr ':' s).getD 1 "") = some mins →
        pyFloat ((pySplitStr ':' s).getD 2 "") = some secs →
        parse_time_to_seconds s = some ((hrs : ℚ) * 3600 + (mins : ℚ) * 60 + secs)) ∧
    (∀ s : String, (pySplitStr ':' s).length < 3 → parse_time_to_seconds s = none) ∧
    (∀ s : String,
        (pyInt ((pySplitStr ':' s).getD 0 "") = none ∨
         pyInt ((pySplitStr ':' s).getD 1 "") = none ∨
         pyFloat ((pySplitStr ':' s).getD 2 "") = none) →
        parse_time_to_seconds s = none) ∧
    parse_time_to_seconds "01:02:03.5" = some (7447 / 2) ∧
    parse_time_to_seconds "00:00:00.000" = some 0 ∧
    parse_time_to_seconds "bad" = none ∧
    parse_time_to_seconds "1:2" = none :=
  ⟨fun s hrs mins secs hlen h0 h1 h2 => parse_time_of_parts s hrs mins secs hlen h0 h1 h2,
   parse_time_short, parse_time_bad_part,
   by
    have h : parse_time_to_seconds "01:02:03.5" = some (mkRat 7447 2) := by decide
    rw [h]
    norm_num [Rat.mkRat_eq_div],
   by
    have h : parse_time_to_seconds "00:00:00.000" = some (mkRat 0 1) := by decide
    rw [h]
    norm_num [Rat.mkRat_eq_div],
   by decide, by decide⟩

/-- Body of the row loop of `parse_data_file` (src/app.py:86-100): strip
the line, skip it when blank, split on tab, and append time and value to
the two accumulators exactly when there are at least two fields, the
first decodes via the Time Codec and the second parses as a float. -/
def dataLoop : List String → List ℚ → List ℚ → List ℚ × List ℚ
  | [], times, values => (times, values)
  | l :: rest, times, values =>
    if pyStrip l = "" then dataLoop rest times values
    else if 2 ≤ (pySplitStr '\t' (pyStrip l)).length then
      match parse_time_to_seconds ((pySplitStr '\t' (pyStrip l)).getD 0 "") with
      | some t =>
        match pyFloat ((pySplitStr '\t' (pyStrip l)).getD 1 "") with
        | some v => dataLoop rest (times ++ [t]) (values ++ [v])
        | none => dataLoop rest times values
      | none => dataLoop rest times values
    else dataLoop rest times values

/-- Declarative reading of one data row: the `(time, value)` pair the row
contributes, or `none` when it is skipped (fewer than two tab fields, an
undecodable time, or an unparseable value; a blank row has one field). -/
def rowParsed (l : String) : Option (ℚ × ℚ) :=
  if 2 ≤ (pySplitStr '\t' (pyStrip l)).length then
    match parse_time_to_seconds ((pySplitStr '\t' (pyStrip l)).getD 0 ""),
          pyFloat ((pySplitStr '\t' (pyStrip l)).getD 1 "") with
    | some t, some v => some (t, v)
    | _, _ => none
  else none

/-- Metric label of the header line (src/app.py:79-80): second tab field
of the stripped first line, `"Unknown"` when absent. -/
def headerLabel (lines : List String) : String :=
  if 1 < (pySplitStr '\t' (pyStrip (lines.getD 0 ""))).length then
    (pySplitStr '\t' (pyStrip (lines.getD 0 ""))).getD 1 ""
  else "Unknown"

/-- Trace File Parser `parse_data_file` (src/app.py:69-108): the file is
given as its list of lines (`readlines`), the result is `none` ("no
data") or the two column arrays with the metric label. I/O errors, which
the source catches and turns into "no data", are outside the line-level
model. -/
def parse_data_file (lines : List String) : Option (List ℚ × List ℚ × String) :=
  if lines.length < 2 then none
  else
    if (dataLoop lines.tail [] []).1 ≠ [] ∧ (dataLoop lines.tail [] []).2 ≠ [] then
      some ((dataLoop lines.tail [] []).1, (dataLoop lines.tail [] []).2,
            headerLabel lines)
    else none

theorem rowParsed_of_blank (l : String) (h : pyStrip l = "") : rowParsed l = none := by
  have hlen : ¬ 2 ≤ (pySplitStr '\t' (pyStrip l)).length := by
    rw [h]; decide
  unfold rowParsed
  rw [if_neg hlen]

theorem dataLoop_append (ls : List String) : ∀ ts vs : List ℚ,
    dataLoop ls ts vs = (ts ++ (ls.filterMap rowParsed).map Prod.fst,
                         vs ++ (ls.filterMap rowParsed).map Prod.snd) := by
  induction ls with
  | nil => intro ts vs; simp [dataLoop]
  | cons l rest ih =>
    intro ts vs
    by_cases h1 : pyStrip l = ""
    · rw [show dataLoop (l :: rest) ts vs = dataLoop rest ts vs by
        simp only [dataLoop]; rw [if_pos h1]]
      simp [List.filterMap_cons, rowParsed_of_blank l h1, ih]
    · by_cases h2 : 2 ≤ (pySplitStr '\t' (pyStrip l)).length
      · cases h3 : parse_time_to_seconds ((pySplitStr '\t' (pyStrip l)).getD 0 "") with
        | none =>
          have hr : rowParsed l = none := by
            unfold rowParsed; rw [if_pos h2, h3]
          rw [show dataLoop (l :: rest) ts vs = dataLoop rest ts vs by
            simp only [dataLoop]; rw [if_neg h1, if_pos h2, h3]]
          simp [List.filterMap_cons, hr, ih]
        | some t =>
          cases h4 : pyFloat ((pySplitStr '\t' (pyStrip l)).getD 1 "") with
          | none =>
            have hr : rowParsed l = none := by
              unfold rowParsed; rw [if_pos h2, h3, h4]
            rw [show dataLoop (l :: rest) ts vs = dataLoop rest ts vs by
              simp only [dataLoop]; rw [if_neg h1, if_pos h2, h3, h4]]
            simp [List.filterMap_cons, hr, ih]
          | some v =>
            have hr : rowParsed l = some (t, v) := by
              unfold rowParsed; rw [if_pos h2, h3, h4]
            rw [show dataLoop (l :: rest) ts vs = dataLoop rest (ts ++ [t]) (vs ++ [v]) by
              simp only [dataLoop]; rw [if_neg h1, if_pos h2, h3, h4]]
            simp [List.filterMap_cons, hr, ih]
      · have hr : rowParsed l = none := by
          unfold rowParsed; rw [if_neg h2]
        rw [show dataLoop (l :: rest) ts vs = dataLoop rest ts vs by
          simp only [dataLoop]; rw [if_neg h1, if_neg h2]]
        simp [List.filterMap_cons, hr, ih]

theorem parse_data_file_eq (lines : List String) :
    parse_data_file lines =
      if lines.length < 2 then none
      else if lines.tail.filterMap rowParsed = [] then none
      else some ((lines.tail.filterMap rowParsed).map Prod.fst,
                 (lines.tail.filterMap rowParsed).map Prod.snd,
                 headerLabel lines) := by
  unfold parse_data_file
  rw [dataLoop_append]
  simp only [List.nil_append]
  by_cases hlen : lines.length < 2
  · rw [if_pos hlen, if_pos hlen]
  · rw [if_neg hlen, if_neg hlen]
    by_cases hS : lines.tail.filterMap rowParsed = []
    · simp [hS]
    · have h1 : (lines.tail.filterMap rowParsed).map Prod.fst ≠ [] := by
        simpa using hS
      have h2 : (lines.tail.filterMap rowParsed).map Prod.snd ≠ [] := by
        simpa using hS
      rw [if_pos ⟨h1, h2⟩, if_neg hS]

theorem parse_data_file_none_iff (lines : List String) :
    parse_data_file lines = none ↔
      lines.length < 2 ∨ lines.tail.filterMap rowParsed = [] := by
  rw [parse_data_file_eq]
  by_cases hlen : lines.length < 2
  · simp [hlen]
  · by_cases hS : lines.tail.filterMap rowParsed = [] <;> simp [hlen, hS]

theorem parse_data_file_some (lines : List String) (ts vs : List ℚ) (lbl : String)
    (h : parse_data_file lines = some (ts, vs, lbl)) :
    ts = (lines.tail.filterMap rowParsed).map Prod.fst ∧
    vs = (lines.tail.filterMap rowParsed).map Prod.snd ∧
    lbl = headerLabel lines := by
  rw [parse_data_file_eq] at h
  by_cases hlen : lines.length < 2
  · rw [if_pos hlen] at h; exact absurd h (by simp)
  · rw [if_neg hlen] at h
    by_cases hS : lines.tail.filterMap rowParsed = []
    · rw [if_pos hS] at h; exact absurd h (by simp)
    · rw [if_neg hS] at h
      simp only [Option.some.injEq, Prod.mk.injEq] at h
      exact ⟨h.1.symm, h.2.1.symm, h.2.2.symm⟩

/-- C2: the Trace File Parser returns "no data" exactly when the file has
fewer than two lines or no data row survives; otherwise the time and
value columns are, in original order, exactly the surviving rows of lines
2..N (at least two tab fields, a Time-Codec-decodable first field, a
float second field), and the label is the header's second tab field
(`"Unknown"` when absent); on the spec's example file the result is the
two-point series `([0, 2], [10, 12.5])` with label `"Pressure(bar)"`, and
a one-line or empty file gives "no data". -/
theorem traceParser_spec :
    (∀ lines : List String,
        parse_data_file lines = none ↔
          lines.length < 2 ∨ lines.tail.filterMap rowParsed = []) ∧
    (∀ (lines : List String) (ts vs : List ℚ) (lbl : String),
        parse_data_file lines = some (ts, vs, lbl) →
          ts = (lines.tail.filterMap rowParsed).map Prod.fst ∧
          vs = (lines.tail.filterMap rowParsed).map Prod.snd ∧
          lbl = headerLabel lines) ∧
    parse_data_file
        ["Time\tPressure(bar)", "00:00:00.000\t10.0",
         "00:00:01.000\tabc", "00:00:02.000\t12.5"] =
      some ([0, 2], [10, 25 / 2], "Pressure(bar)") ∧
    parse_data_file ["Time\tPressure(bar)"] = none ∧
    parse_data_file [] = none :=
  ⟨parse_data_file_none_iff, parse_data_file_some,
   by
    have h : parse_data_file
        ["Time\tPressure(bar)", "00:00:00.000\t10.0",
         "00:00:01.000\tabc", "00:00:02.000\t12.5"] =
        some ([mkRat 0 1, mkRat 2 1], [mkRat 10 1, mkRat 25 2], "Pressure(bar)") := by
      decide
    rw [h]
    norm_num [Rat.mkRat_eq_div],
   by decide, by decide⟩

/-- C9: whenever the Trace File Parser returns a series, the time column
and the value column have the same length: a row that fails to parse is
dropped from both, never substituted in only one. -/
theorem traceParser_row_alignment :
    ∀ (lines : List String) (ts vs : List ℚ) (lbl : String),
      parse_data_file lines = some (ts, vs, lbl) → ts.length = vs.length := by
  intro lines ts vs lbl h
  obtain ⟨h1, h2, _⟩ := parse_data_file_some lines ts vs lbl h
  rw [h1, h2]
  simp

/-- Witness for C9 at the spec's example file. -/
theorem traceParser_row_alignment_witness :
    ([mkRat 0 1, mkRat 2 1] : List ℚ).length = ([mkRat 10 1, mkRat 25 2] : List ℚ).length :=
  traceParser_row_alignment
    ["Time\tPressure(bar)", "00:00:00.000\t10.0",
     "00:00:01.000\tabc", "00:00:02.000\t12.5"]
    [mkRat 0 1, mkRat 2 1] [mkRat 10 1, mkRat 25 2] "Pressure(bar)" (by decide)

/-- Run metadata record of `parse_journal_file` (src/app.py:114-120), all
fields defaulting to `""`. -/
structure Metadata where
  procedure_name : String
  log_name : String
  sample_name : String
  vial_position : String
  date_time : String
deriving DecidableEq

/-- Python `str.startswith(pre)`. -/
def startsWithStr (pre s : String) : Bool := pre.data.isPrefixOf s.data

/-- Python `s.split(sep, 1)[1]` for `sep = ':'`: everything after the
first colon (empty when there is no colon). -/
def afterColon (s : String) : String := ⟨(s.data.dropWhile (fun c => !(c == ':'))).tail⟩

/-- One iteration of the journal loop (src/app.py:125-134): strip the
line, match it by exact prefix against the four recognized keys, and on a
match overwrite the corresponding field with the trimmed text after the
first colon. -/
def journalStep (m : Metadata) (rawLine : String) : Metadata :=
  if startsWithStr "Procedure.Name:" (pyStrip rawLine) then
    { m with procedure_name := pyStrip (afterColon (pyStrip rawLine)) }
  else if startsWithStr "Procedure.Logname:" (pyStrip rawLine) then
    { m with log_name := pyStrip (afterColon (pyStrip rawLine)) }
  else if startsWithStr "Procedure.Samplename:" (pyStrip rawLine) then
    { m with sample_name := pyStrip (afterColon (pyStrip rawLine)) }
  else if startsWithStr "Procedure.Vialposition:" (pyStrip rawLine) then
    { m with vial_position := pyStrip (afterColon (pyStrip rawLine)) }
  else m

/-- Fallback datetime derived from the run folder name
(src/app.py:139-149): split on `_`; with at least 3 tokens, the
second-to-last token, a space, and the last token with `-` replaced by
`:`; `none` otherwise. (The `try` around the formatting cannot fail.) -/
def dtFromFolder (folder : String) : Option String :=
  if 3 ≤ (pySplitStr '_' folder).length then
    some ((pySplitStr '_' folder).getD ((pySplitStr '_' folder).length - 2) "" ++ " " ++
      ⟨((pySplitStr '_' folder).getD ((pySplitStr '_' folder).length - 1) "").data.map
        (fun c => if c = '-' then ':' else c)⟩)
  else none

/-- Journal Metadata Extractor `parse_journal_file` (src/app.py:111-151).
The journal argument is `some lines` when `journal.txt` exists and is
readable, `none` when it is absent or unreadable (the source catches the
read error and keeps the defaults, which coincides with the absent case);
the folder name is the run directory's own name. -/
def parse_journal_file (journal : Option (List String)) (folder_name : String) : Metadata :=
  let m := match journal with
    | none => ⟨"", "", "", "", ""⟩
    | some ls => ls.foldl journalStep ⟨"", "", "", "", ""⟩
  if m.date_time = "" then
    match dtFromFolder folder_name with
    | some dt => { m with date_time := dt }
    | none => m
  else m

/-- Value a single journal line contributes for one key: the trimmed text
after the first colon when the stripped line starts with the key. -/
def matchVal (key : String) (rawLine : String) : Option String :=
  if startsWithStr key (pyStrip rawLine) then some (pyStrip (afterColon (pyStrip rawLine)))
  else none

/-- Value of the LAST line matching a key, or the default when none does. -/
def lastMatch (key d : String) (ls : List String) : String :=
  (ls.filterMap (matchVal key)).getLastD d

theorem startsWith_excl (k1 k2 s : String)
    (h12 : k1.data.isPrefixOf k2.data = false) (h21 : k2.data.isPrefixOf k1.data = false)
    (h : startsWithStr k1 s = true) : startsWithStr k2 s = false := by
  unfold startsWithStr at h ⊢
  rw [List.isPrefixOf_iff_prefix] at h
  rw [← Bool.not_eq_true, List.isPrefixOf_iff_prefix]
  intro hc
  rcases List.prefix_or_prefix_of_prefix h hc with hp | hp
  · rw [← List.isPrefixOf_iff_prefix] at hp
    rw [h12] at hp
    exact Bool.false_ne_true hp
  · rw [← List.isPrefixOf_iff_prefix] at hp
    rw [h21] at hp
    exact Bool.false_ne_true hp

theorem journalStep_proc (m : Metadata) (l : String) :
    (journalStep m l).procedure_name =
      (matchVal "Procedure.Name:" l).getD m.procedure_name := by
  unfold journalStep matchVal
  by_cases c1 : startsWithStr "Procedure.Name:" (pyStrip l) = true
  · simp [c1]
  · simp only [Bool.not_eq_true] at c1
    simp only [c1, Bool.false_eq_true, if_false]
    split_ifs <;> rfl

theorem journalStep_log (m : Metadata) (l : String) :
    (journalStep m l).log_name =
      (matchVal "Procedure.Logname:" l).getD m.log_name := by
  unfold journalStep matchVal
  by_cases c1 : startsWithStr "Procedure.Name:" (pyStrip l) = true
  · have e := startsWith_excl "Procedure.Name:" "Procedure.Logname:" (pyStrip l)
      (by decide) (by decide) c1
    simp [c1, e]
  · simp only [Bool.not_eq_true] at c1
    simp only [c1, Bool.false_eq_true, if_false]
    by_cases c2 : startsWithStr "Procedure.Logname:" (pyStrip l) = true
    · simp [c2]
    · simp only [Bool.not_eq_true] at c2
      simp only [c2, Bool.false_eq_true, if_false]
      split_ifs <;> rfl

theorem journalStep_sample (m : Metadata) (l : String) :
    (journalStep m l).sample_name =
      (matchVal "Procedure.Samplename:" l).getD m.sample_name := by
  unfold journalStep matchVal
  by_cases c1 : startsWithStr "Procedure.Name:" (pyStrip l) = true
  · have e := startsWith_excl "Procedure.Name:" "Procedure.Samplename:" (pyStrip l)
      (by decide) (by decide) c1
    simp [c1, e]
  · simp only [Bool.not_eq_true] at c1
    simp only [c1, Bool.false_eq_true, if_false]
    by_cases c2 : startsWithStr "Procedure.Logname:" (pyStrip l) = true
    · have e := startsWith_excl "Procedure.Logname:" "Procedure.Samplename:" (pyStrip l)
        (by decide) (by decide) c2
      simp [c2, e]
    · simp only [Bool.not_eq_true] at c2
      simp only [c2, Bool.false_eq_true, if_false]
      by_cases c3 : startsWithStr "Procedure.Samplename:" (pyStrip l) = true
      · simp [c3]
      · simp only [Bool.not_eq_true] at c3
        simp only [c3, Bool.false_eq_true, if_false]
        split_ifs <;> rfl

theorem journalStep_vial (m : Metadata) (l : String) :
    (journalStep m l).vial_position =
      (matchVal "Procedure.Vialposition:" l).getD m.vial_position := by
  unfold journalStep matchVal
  by_cases c1 : startsWithStr "Procedure.Name:" (pyStrip l) = true
  · have e := startsWith_excl "Procedure.Name:" "Procedure.Vialposition:" (pyStrip l)
      (by decide) (by decide) c1
    simp [c1, e]
  · simp only [Bool.not_eq_true] at c1
    simp only [c1, Bool.false_eq_true, if_false]
    by_cases c2 : startsWithStr "Procedure.Logname:" (pyStrip l) = true
    · have e := startsWith_excl "Procedure.Logname:" "Procedure.Vialposition:" (pyStrip l)
        (by decide) (by decide) c2
      simp [c2, e]
    · simp only [Bool.not_eq_true] at c2
      simp only [c2, Bool.false_eq_true, if_false]
      by_cases c3 : startsWithStr "Procedure.Samplename:" (pyStrip l) = true
      · have e := startsWith_excl "Procedure.Samplename:" "Procedure.Vialposition:" (pyStrip l)
          (by decide) (by decide) c3
        simp [c3, e]
      · simp only [Bool.not_eq_true] at c3
        simp only [c3, Bool.false_eq_true, if_false]
        split_ifs <;> rfl

theorem journalStep_date (m : Metadata) (l : String) :
    (journalStep m l).date_time = m.date_time := by
  unfold journalStep
  split_ifs <;> rfl

theorem lastMatch_cons (k d l : String) (rest : List String) :
    lastMatch k ((matchVal k l).getD d) rest = lastMatch k d (l :: rest) := by
  unfold lastMatch
  cases h : matchVal k l with
  | none =>
    rw [List.filterMap_cons_none h, Option.getD_none]
  | some v =>
    rw [List.filterMap_cons_some h, List.getLastD_cons, Option.getD_some]

theorem foldl_journalStep_proc (ls : List String) : ∀ m : Metadata,
    (ls.foldl journalStep m).procedure_name =
      lastMatch "Procedure.Name:" m.procedure_name ls := by
  induction ls with
  | nil => intro m; simp [lastMatch]
  | cons l rest ih =>
    intro m
    rw [List.foldl_cons, ih (journalStep m l), journalStep_proc, lastMatch_cons]

theorem foldl_journalStep_log (ls : List String) : ∀ m : Metadata,
    (ls.foldl journalStep m).log_name =
      lastMatch "Procedure.Logname:" m.log_name ls := by
  induction ls with
  | nil => intro m; simp [lastMatch]
  | cons l rest ih =>
    intro m
    rw [List.foldl_cons, ih (journalStep m l), journalStep_log, lastMatch_cons]

theorem foldl_journalStep_sample (ls : List String) : ∀ m : Metadata,
    (ls.foldl journalStep m).sample_name =
      lastMatch "Procedure.Samplename:" m.sample_name ls := by
  induction ls with
  | nil => intro m; simp [lastMatch]
  | cons l rest ih =>
    intro m
    rw [List.foldl_cons, ih (journalStep m l), journalStep_sample, lastMatch_cons]

theorem foldl_journalStep_vial (ls : List String) : ∀ m : Metadata,
    (ls.foldl journalStep m).vial_position =
      lastMatch "Procedure.Vialposition:" m.vial_position ls := by
  induction ls with
  | nil => intro m; simp [lastMatch]
  | cons l rest ih =>
    intro m
    rw [List.foldl_cons, ih (journalStep m l), journalStep_vial, lastMatch_cons]

theorem foldl_journalStep_date (ls : List String) : ∀ m : Metadata,
    (ls.foldl journalStep m).date_time = m.date_time := by
  induction ls with
  | nil => intro m; rfl
  | cons l rest ih =>
    intro m
    rw [List.foldl_cons, ih (journalStep m l), journalStep_date]

theorem dtUpdate_keeps (m : Metadata) (folder : String) :
    ((if m.date_time = "" then
        match dtFromFolder folder with
        | some dt => { m with date_time := dt }
        | none => m
      else m) : Metadata).procedure_name = m.procedure_name ∧
    ((if m.date_time = "" then
        match dtFromFolder folder with
        | some dt => { m with date_time := dt }
        | none => m
      else m) : Metadata).log_name = m.log_name ∧
    ((if m.date_time = "" then
        match dtFromFolder folder with
        | some dt => { m with date_time := dt }
        | none => m
      else m) : Metadata).sample_name = m.sample_name ∧
    ((if m.date_time = "" then
        match dtFromFolder folder with
        | some dt => { m with date_time := dt }
        | none => m
      else m) : Metadata).vial_position = m.vial_position := by
  split_ifs <;> cases dtFromFolder folder <;> exact ⟨rfl, rfl, rfl, rfl⟩

theorem parse_journal_file_fields (journal : Option (List String)) (folder : String) :
    (parse_journal_file journal folder).procedure_name =
      lastMatch "Procedure.Name:" "" (journal.getD []) ∧
    (parse_journal_file journal folder).log_name =
      lastMatch "Procedure.Logname:" "" (journal.getD []) ∧
    (parse_journal_file journal folder).sample_name =
      lastMatch "Procedure.Samplename:" "" (journal.getD []) ∧
    (parse_journal_file journal folder).vial_position =
      lastMatch "Procedure.Vialposition:" "" (journal.getD []) := by
  cases journal with
  | none =>
    unfold parse_journal_file
    obtain ⟨k1, k2, k3, k4⟩ := dtUpdate_keeps ⟨"", "", "", "", ""⟩ folder
    exact ⟨k1, k2, k3, k4⟩
  | some ls =>
    unfold parse_journal_file
    obtain ⟨k1, k2, k3, k4⟩ := dtUpdate_keeps (ls.foldl journalStep ⟨"", "", "", "", ""⟩) folder
    refine ⟨?_, ?_, ?_, ?_⟩
    · rw [show (Option.some ls).getD [] = ls from rfl]
      exact k1.trans (foldl_journalStep_proc ls ⟨"", "", "", "", ""⟩)
    · rw [show (Option.some ls).getD [] = ls from rfl]
      exact k2.trans (foldl_journalStep_log ls ⟨"", "", "", "", ""⟩)
    · rw [show (Option.some ls).getD [] = ls from rfl]
      exact k3.trans (foldl_journalStep_sample ls ⟨"", "", "", "", ""⟩)
    · rw [show (Option.some ls).getD [] = ls from rfl]
      exact k4.trans (foldl_journalStep_vial ls ⟨"", "", "", "", ""⟩)

theorem parse_journal_file_date (journal : Option (List String)) (folder : String) :
    (parse_journal_file journal folder).date_time = (dtFromFolder folder).getD "" := by
  cases journal with
  | none =>
    unfold parse_journal_file
    cases h : dtFromFolder folder <;> simp [h]
  | some ls =>
    unfold parse_journal_file
    have hd : (ls.foldl journalStep ⟨"", "", "", "", ""⟩).date_time = "" :=
      foldl_journalStep_date ls ⟨"", "", "", "", ""⟩
    rw [if_pos hd]
    cases h : dtFromFolder folder with
    | none => simpa [h] using hd
    | some dt => simp [h]

theorem dtFromFolder_some_iff (folder : String) :
    (dtFromFolder folder).isSome = true ↔ 3 ≤ (pySplitStr '_' folder).length := by
  unfold dtFromFolder
  by_cases h : 3 ≤ (pySplitStr '_' folder).length <;> simp [h]

theorem dtFromFolder_ne_empty (folder dt : String)
    (h : dtFromFolder folder = some dt) : dt ≠ "" := by
  unfold dtFromFolder at h
  by_cases hl : 3 ≤ (pySplitStr '_' folder).length
  · rw [if_pos hl, Option.some.injEq] at h
    intro he
    have := congrArg String.data (h.trans he)
    simp [String.data_append] at this
  · rw [if_neg hl] at h
    exact absurd h (by simp)

/-- C4 counterexample: with two `Procedure.Samplename:` lines the source
keeps the value of the LAST matching line (`"QC02"`), not of the first
(`"QC01"` — the trimmed text after the first colon of the first matching
line), refuting the claim that the first matching line sets the field. -/
theorem journalExtractor_first_line_cex :
    (parse_journal_file
        (some ["Procedure.Samplename: QC01", "Procedure.Samplename: QC02"])
        "run").sample_name = "QC02" ∧
    ¬ (parse_journal_file
        (some ["Procedure.Samplename: QC01", "Procedure.Samplename: QC02"])
        "run").sample_name = "QC01" := by
  decide

/-- C4 (amended: the LAST matching line wins, not the first): each of the
four fields equals the trimmed text after the first colon of the last
journal line whose stripped text starts with the corresponding key (empty
when no line matches); an absent or unreadable journal leaves every field
empty; and a still-empty `date_time` is derived from the folder name
split on `_` (with at least 3 tokens: second-to-last token, space, last
token with `-` replaced by `:`); e.g. `Procedure.Samplename: QC01` yields
sample name `QC01`, and a missing journal with folder
`200-SPD_2025-12-11_12-27-48` yields `2025-12-11 12:27:48`. -/
theorem journalExtractor_spec :
    (∀ (ls : List String) (folder : String),
        (parse_journal_file (some ls) folder).procedure_name =
          lastMatch "Procedure.Name:" "" ls ∧
        (parse_journal_file (some ls) folder).log_name =
          lastMatch "Procedure.Logname:" "" ls ∧
        (parse_journal_file (some ls) folder).sample_name =
          lastMatch "Procedure.Samplename:" "" ls ∧
        (parse_journal_file (some ls) folder).vial_position =
          lastMatch "Procedure.Vialposition:" "" ls) ∧
    (∀ folder : String,
        (parse_journal_file none folder).procedure_name = "" ∧
        (parse_journal_file none folder).log_name = "" ∧
        (parse_journal_file none folder).sample_name = "" ∧
        (parse_journal_file none folder).vial_position = "") ∧
    (∀ (journal : Option (List String)) (folder : String),
        (parse_journal_file journal folder).date_time = (dtFromFolder folder).getD "") ∧
    (parse_journal_file (some ["Procedure.Samplename: QC01"]) "run").sample_name = "QC01" ∧
    (parse_journal_file none "200-SPD_2025-12-11_12-27-48").date_time =
      "2025-12-11 12:27:48" := by
  refine ⟨fun ls folder => ?_, fun folder => ?_, parse_journal_file_date, by decide, by decide⟩
  · simpa using parse_journal_file_fields (some ls) folder
  · simpa [lastMatch] using parse_journal_file_fields none folder

/-- C10: journal content never populates `date_time` (none of the four
recognized keys sets it), so `date_time` is non-empty exactly when the
folder name splits on `_` into at least 3 tokens, in which case it is the
folder-derived `second-to-last token, space, last token with - replaced
by :` whatever the tokens look like; e.g. folder `a_b_c` yields `b c`. -/
theorem journalExtractor_datetime_from_folder :
    (∀ (journal : Option (List String)) (folder : String),
        (parse_journal_file journal folder).date_time =
          (parse_journal_file none folder).date_time) ∧
    (∀ (journal : Option (List String)) (folder : String),
        (parse_journal_file journal folder).date_time ≠ "" ↔
          3 ≤ (pySplitStr '_' folder).length) ∧
    (∀ (journal : Option (List String)) (folder dt : String),
        dtFromFolder folder = some dt →
          (parse_journal_file journal folder).date_time = dt) ∧
    (parse_journal_file (some ["Procedure.Name: x"]) "a_b_c").date_time = "b c" := by
  refine ⟨fun journal folder => ?_, fun journal folder => ?_,
    fun journal folder dt h => ?_, by decide⟩
  · rw [parse_journal_file_date, parse_journal_file_date]
  · rw [parse_journal_file_date, ← dtFromFolder_some_iff]
    cases h : dtFromFolder folder with
    | none => simp [h]
    | some dt => simpa [h] using dtFromFolder_ne_empty folder dt h
  · rw [parse_journal_file_date, h, Option.getD_some]

/-- One directory entry, with the lines of its `journal.txt` when it has
a readable one. -/
structure JEntry where
  name : String
  isDir : Bool
  journal : Option (List String)
deriving DecidableEq

/-- State of the data root passed to `get_available_runs`: whether
`Path.exists()` holds, whether it is a directory, and its entries. -/
structure BaseDir where
  present : Bool
  isDir : Bool
  entries : List JEntry
deriving DecidableEq

/-- One row of the run table built by `get_available_runs`
(src/app.py:162-168). -/
structure RunInfo where
  name : String
  procedure : String
  sample : String
  vial : String
  datetime : String
deriving DecidableEq

/-- Code-point lexicographic `≤` on character lists: Python's ordering
of strings. -/
def lexLe : List Char → List Char → Bool
  | [], _ => true
  | _ :: _, [] => false
  | c :: cs, d :: ds =>
    if c.toNat < d.toNat then true
    else if d.toNat < c.toNat then false
    else lexLe cs ds

/-- Stable insertion into a list sorted by a string key: the new element
goes after every element whose key is `≤` its own, matching the stable
lexicographic `sorted(...)` of Python. -/
def insSorted (key : α → String) (x : α) : List α → List α
  | [] => [x]
  | y :: ys => if lexLe (key y).data (key x).data then y :: insSorted key x ys else x :: y :: ys

/-- Stable sort by a string key (Python `sorted` with string keys). -/
def sortedBy (key : α → String) (l : List α) : List α :=
  l.foldl (fun acc x => insSorted key x acc) []

/-- Table row for one run directory (src/app.py:161-168). -/
def runInfoOf (e : JEntry) : RunInfo :=
  let m := parse_journal_file e.journal e.name
  ⟨e.name, m.procedure_name, m.sample_name, m.vial_position, m.date_time⟩

/-- Run Catalog `get_available_runs` (src/app.py:154-169): with a `None`
or non-existing base dir the loop body never runs and `[]` is returned;
with an existing base dir, `sorted(base_dir.iterdir())` is taken — which
raises `NotADirectoryError` when the path exists but is not a directory
(the source checks `exists()` only) — and every entry that is a directory
contributes a row with its journal metadata. -/
def get_available_runs (base_dir : Option BaseDir) : Except String (List RunInfo) :=
  match base_dir with
  | none => Except.ok []
  | some bd =>
    if bd.present then
      if bd.isDir then
        Except.ok (((sortedBy (fun e => e.name) bd.entries).filter (fun e => e.isDir)).map
          runInfoOf)
      else Except.error "NotADirectoryError"
    else Except.ok []

/-- C1 counterexample: a root that exists but is a plain file makes
`get_available_runs` raise `NotADirectoryError` (from
`sorted(base_dir.iterdir())`, since only `exists()` is checked), so it
neither returns an empty list nor keeps the exception inside the engine. -/
theorem runCatalog_not_dir_cex :
    get_available_runs (some ⟨true, false, []⟩) = Except.error "NotADirectoryError" ∧
    get_available_runs (some ⟨true, false, []⟩) ≠ Except.ok [] :=
  ⟨rfl, fun h => Except.noConfusion h⟩

/-- C1 (amended: the not-a-directory case raises): `get_available_runs`
returns `[]` without raising when the root is `None` or does not exist,
returns normally (no exception) when the root exists and is a directory,
but propagates `NotADirectoryError` when the root exists and is not a
directory. -/
theorem runCatalog_list_runs_spec :
    get_available_runs none = Except.ok [] ∧
    (∀ bd : BaseDir, bd.present = false → get_available_runs (some bd) = Except.ok []) ∧
    (∀ bd : BaseDir, bd.present = true → bd.isDir = true →
        get_available_runs (some bd) =
          Except.ok (((sortedBy (fun e => e.name) bd.entries).filter (fun e => e.isDir)).map
            runInfoOf)) ∧
    (∀ bd : BaseDir, bd.present = true → bd.isDir = false →
        get_available_runs (some bd) = Except.error "NotADirectoryError") := by
  refine ⟨rfl, fun bd hp => ?_, fun bd hp hd => ?_, fun bd hp hd => ?_⟩
  · simp [get_available_runs, hp]
  · simp [get_available_runs, hp, hd]
  · simp [get_available_runs, hp, hd]

/-- State of `base_dir / run_name` as `get_metrics_for_run` probes it:
`Path.exists()`, `Path.is_dir()`, and the file names inside. -/
structure RunPath where
  present : Bool
  isDir : Bool
  files : List String
deriving DecidableEq

/-- Python `str.endswith(suf)`. -/
def endsWithStr (suf s : String) : Bool := suf.data.isSuffixOf s.data

/-- Membership in `Path.glob("Pump-*.txt")`: the name starts with
`Pump-`, ends with `.txt`, and is long enough for the pattern. -/
def globPumpTxt (name : String) : Bool :=
  startsWithStr "Pump-" name && endsWithStr ".txt" name && decide (9 ≤ name.length)

/-- `Path.stem` of a name ending in `.txt`: the name without its last
four characters. -/
def stemOfTxt (name : String) : String := ⟨name.data.take (name.data.length - 4)⟩

/-- What one matched file contributes (src/app.py:183-196): its stem is
split on `_`; with at least two tokens the first token is the pump and
the remaining tokens rejoined with `_` are the metric name, paired with
the file name; fewer tokens contribute nothing. -/
def metricEntry (file : String) : Option (String × (String × String)) :=
  if 2 ≤ (pySplitStr '_' (stemOfTxt file)).length then
    some ((pySplitStr '_' (stemOfTxt file)).getD 0 "",
          (String.intercalate "_" (pySplitStr '_' (stemOfTxt file)).tail, file))
  else none

/-- Append an entry to the group of `pump` in the insertion-ordered
association list modelling the Python dict (a new pump goes to the end,
an existing pump keeps its place and appends to its list). -/
def addMetric (acc : List (String × List (String × String))) (pump : String)
    (entry : String × String) : List (String × List (String × String)) :=
  match acc with
  | [] => [(pump, [entry])]
  | (p, es) :: rest =>
    if p = pump then (p, es ++ [entry]) :: rest else (p, es) :: addMetric rest pump entry

/-- The grouping loop of `get_metrics_for_run` over the sorted matched
files. -/
def metricsLoop (files : List String) (acc : List (String × List (String × String))) :
    List (String × List (String × String)) :=
  files.foldl (fun acc file =>
    match metricEntry file with
    | some (pump, e) => addMetric acc pump e
    | none => acc) acc

/-- Metric Indexer `get_metrics_for_run` (src/app.py:172-198): `{}` for a
`None` base dir (`has_base = false`) and for a non-existing or
non-directory run path; otherwise the files matching `Pump-*.txt`, in
lexicographic order, grouped by pump. -/
def get_metrics_for_run (has_base : Bool) (run_path : RunPath) :
    List (String × List (String × String)) :=
  if !has_base then []
  else if !run_path.present || !run_path.isDir then []
  else metricsLoop (sortedBy (fun s => s) (run_path.files.filter globPumpTxt)) []

/-- The entry a file contributes to the group of one given pump. -/
def contribOf (pump file : String) : Option (String × String) :=
  match metricEntry file with
  | some (p, e) => if p = pump then some e else none
  | none => none

theorem lookup_addMetric (acc : List (String × List (String × String)))
    (pump q : String) (e : String × String) :
    List.lookup q (addMetric acc pump e) =
      if q = pump then some (((List.lookup q acc).getD []) ++ [e])
      else List.lookup q acc := by
  induction acc with
  | nil =>
    by_cases h : q = pump
    · have hb : (q == pump) = true := beq_iff_eq.mpr h
      simp [addMetric, List.lookup, hb, h]
    · have hb : (q == pump) = false := beq_eq_false_iff_ne.mpr h
      simp [addMetric, List.lookup, hb, h]
  | cons hd rest ih =>
    obtain ⟨p, es⟩ := hd
    simp only [addMetric]
    by_cases hp : p = pump
    · rw [if_pos hp]
      by_cases hq : q = p
      · have hq2 : q = pump := hq.trans hp
        have hb : (q == p) = true := beq_iff_eq.mpr hq
        have hb2 : (pump == p) = true := beq_iff_eq.mpr hp.symm
        simp [List.lookup, hb, hb2, hq2]
      · have hq2 : ¬ q = pump := fun h => hq (h.trans hp.symm)
        have hb : (q == p) = false := beq_eq_false_iff_ne.mpr hq
        simp [List.lookup, hb, hq2]
    · rw [if_neg hp]
      by_cases hq : q = p
      · have hq2 : ¬ q = pump := fun h => hp (hq.symm.trans h)
        have hb : (q == p) = true := beq_iff_eq.mpr hq
        simp [List.lookup, hb, hq2]
      · have hb : (q == p) = false := beq_eq_false_iff_ne.mpr hq
        simp [List.lookup, hb, ih]

theorem lookup_metricsLoop (files : List String) :
    ∀ (acc : List (String × List (String × String))) (q : String),
    List.lookup q (metricsLoop files acc) =
      match List.lookup q acc with
      | some es0 => some (es0 ++ files.filterMap (fun f => contribOf q f))
      | none =>
        if files.filterMap (fun f => contribOf q f) = [] then none
        else some (files.filterMap (fun f => contribOf q f)) := by
  induction files with
  | nil =>
    intro acc q
    cases hacc : List.lookup q acc <;> simp [metricsLoop, hacc]
  | cons f fs ih =>
    intro acc q
    have hstep : metricsLoop (f :: fs) acc =
        metricsLoop fs (match metricEntry f with
          | some pe => addMetric acc pe.1 pe.2
          | none => acc) := by
      unfold metricsLoop
      rw [List.foldl_cons]
      cases metricEntry f <;> rfl
    rw [hstep]
    cases he : metricEntry f with
    | none =>
      have hc : contribOf q f = none := by
        unfold contribOf; rw [he]
      rw [ih, List.filterMap_cons_none hc]
    | some pe =>
      obtain ⟨p, e⟩ := pe
      rw [ih, lookup_addMetric]
      by_cases hpq : q = p
      · have hc : contribOf q f = some e := by
          unfold contribOf; rw [he]
          exact if_pos hpq.symm
        rw [if_pos hpq, List.filterMap_cons_some hc]
        cases hacc : List.lookup q acc <;> simp
      · have hc : contribOf q f = none := by
          unfold contribOf; rw [he]
          exact if_neg (fun h => hpq h.symm)
        rw [if_neg hpq, List.filterMap_cons_none hc]

/-- C5: the Metric Indexer returns an empty mapping when the base dir is
`None` or the run path does not exist or is not a directory; otherwise it
takes the `Pump-*.txt` files in lexicographic order and each pump's group
is exactly, in that enumeration order, the entries of the files whose
stem splits on `_` into at least two tokens with first token that pump
(metric name: remaining tokens rejoined by `_`; stems with fewer tokens
are skipped); the spec's three-file example groups as stated with the
sort putting `Actual-flow` before `Pressure`. -/
theorem metricIndexer_spec :
    (∀ rp : RunPath, get_metrics_for_run false rp = []) ∧
    (∀ (hb : Bool) (rp : RunPath), rp.present = false ∨ rp.isDir = false →
        get_metrics_for_run hb rp = []) ∧
    (∀ (rp : RunPath) (q : String), rp.present = true → rp.isDir = true →
        List.lookup q (get_metrics_for_run true rp) =
          (if (sortedBy (fun s => s) (rp.files.filter globPumpTxt)).filterMap
               (fun f => contribOf q f) = []
           then none
           else some ((sortedBy (fun s => s) (rp.files.filter globPumpTxt)).filterMap
               (fun f => contribOf q f)))) ∧
    get_metrics_for_run true ⟨true, true,
        ["Pump-HP_Pressure.txt", "Pump-HP_Actual-flow.txt", "Pump-LP_Pressure.txt"]⟩ =
      [("Pump-HP", [("Actual-flow", "Pump-HP_Actual-flow.txt"),
                    ("Pressure", "Pump-HP_Pressure.txt")]),
       ("Pump-LP", [("Pressure", "Pump-LP_Pressure.txt")])] := by
  refine ⟨fun rp => rfl, fun hb rp h => ?_, fun rp q hp hd => ?_, by decide⟩
  · cases hb with
    | false => rfl
    | true =>
      rcases h with h | h <;> simp [get_metrics_for_run, h]
  · rw [show get_metrics_for_run true rp =
        metricsLoop (sortedBy (fun s => s) (rp.files.filter globPumpTxt)) [] by
      simp [get_metrics_for_run, hp, hd]]
    rw [lookup_metricsLoop]
    rfl

/-- Keywords routing a metric to the flow axis (src/app.py:201). -/
def FLOW_AXIS_KEYWORDS : List String := ["flow", "speed", "setpoint", "displacement"]

/-- Python `str.lower()` (ASCII letters; the file names at hand are
ASCII). -/
def strLower (s : String) : String := ⟨s.data.map Char.toLower⟩

/-- Python `needle in hay` on strings: substring containment. -/
def containsSub (needle hay : String) : Bool :=
  hay.data.tails.any (fun t => needle.data.isPrefixOf t)

/-- Axis Classifier `classify_metric_axis` (src/app.py:204-208): `"flow"`
when the lower-cased file name contains any flow keyword, `"pressure"`
otherwise. -/
def classify_metric_axis (metric_filename : String) : String :=
  if FLOW_AXIS_KEYWORDS.any (fun kw => containsSub kw (strLower metric_filename)) then "flow"
  else "pressure"

/-- C8: the Axis Classifier returns `"flow"` exactly when the lower-cased
name contains one of `flow`, `speed`, `setpoint`, `displacement`, and
`"pressure"` otherwise; it depends only on the lower-cased name (hence is
case-insensitive, and it is a pure function of the file name by
construction); `Pump-HP_Actual-flow.txt` is flow and
`Pump-HP_Pressure.txt` is pressure. -/
theorem axisClassifier_spec :
    (∀ s : String, classify_metric_axis s = "flow" ↔
        ∃ kw ∈ FLOW_AXIS_KEYWORDS, containsSub kw (strLower s) = true) ∧
    (∀ s : String, classify_metric_axis s = "pressure" ↔
        ¬ ∃ kw ∈ FLOW_AXIS_KEYWORDS, containsSub kw (strLower s) = true) ∧
    (∀ s t : String, strLower s = strLower t →
        classify_metric_axis s = classify_metric_axis t) ∧
    classify_metric_axis "Pump-HP_Actual-flow.txt" = "flow" ∧
    classify_metric_axis "Pump-HP_Pressure.txt" = "pressure" := by
  refine ⟨fun s => ?_, fun s => ?_, fun s t h => ?_, by decide, by decide⟩
  · unfold classify_metric_axis
    by_cases h : FLOW_AXIS_KEYWORDS.any (fun kw => containsSub kw (strLower s)) = true
    · simpa [h] using List.any_eq_true.mp h
    · simp only [h, Bool.false_eq_true, if_false]
      constructor
      · intro he; exact absurd he (by decide)
      · intro he; exact absurd (List.any_eq_true.mpr he) h
  · unfold classify_metric_axis
    by_cases h : FLOW_AXIS_KEYWORDS.any (fun kw => containsSub kw (strLower s)) = true
    · simp only [h, if_true]
      constructor
      · intro he; exact absurd he (by decide)
      · intro he; exact absurd (List.any_eq_true.mp h) he
    · simp only [h, Bool.false_eq_true, if_false]
      constructor
      · intro _ he; exact absurd (List.any_eq_true.mpr he) h
      · intro _; trivial
  · unfold classify_metric_axis
    rw [h]

/-- Resolution of explicitly selected table rows to run names
(src/app.py:216-219): each index that is a valid position in the table
contributes that row's folder name, in selection order. The table is
modelled by its column of folder names; `isinstance(idx, int)` is the
typing of the index list. -/
def resolve_selected (run_table_data : List String) (selected_rows : List Int) : List String :=
  selected_rows.filterMap (fun idx =>
    if 0 ≤ idx ∧ idx < (run_table_data.length : Int) then
      some (run_table_data.getD idx.toNat "")
    else none)

/-- Run selection `extract_selected_runs` (src/app.py:211-222): `[]` for
an empty table; the resolved names when any survive; otherwise the first
row's folder (`selected_rows or []` makes `None` the empty selection,
merged here into the list argument). -/
def extract_selected_runs (run_table_data : List String) (selected_rows : List Int) : List String :=
  if run_table_data = [] then []
  else if resolve_selected run_table_data selected_rows ≠ [] then
    resolve_selected run_table_data selected_rows
  else [run_table_data.getD 0 ""]

/-- C6 counterexample: with table `["A"]` and the non-empty explicit
selection `[5]` (an out-of-range row), the resolved run names are `[]`
but the source falls back to the first run and returns `["A"]` — so a
supplied non-empty selection is NOT always returned resolved, refuting
the claim as stated. -/
theorem selectRuns_nonempty_selection_cex :
    extract_selected_runs ["A"] [5] = ["A"] ∧
    resolve_selected ["A"] [5] = [] ∧
    extract_selected_runs ["A"] [5] ≠ resolve_selected ["A"] [5] := by
  decide

/-- C6 (amended: the fallback triggers whenever the selection RESOLVES to
no valid row, not only when none is supplied): an empty table yields
`[]`; a selection resolving to at least one valid run name yields exactly
those names; otherwise — in particular for the empty selection, which
always resolves to nothing — the first run of a non-empty table is
returned. -/
theorem selectRuns_spec :
    (∀ (table : List String) (rows : List Int),
        table = [] → extract_selected_runs table rows = []) ∧
    (∀ (table : List String) (rows : List Int),
        resolve_selected table rows ≠ [] →
        extract_selected_runs table rows = resolve_selected table rows) ∧
    (∀ (table : List String) (rows : List Int),
        table ≠ [] → resolve_selected table rows = [] →
        extract_selected_runs table rows = [table.getD 0 ""]) ∧
    (∀ table : List String, resolve_selected table [] = []) := by
  refine ⟨fun table rows h => ?_, fun table rows h => ?_, fun table rows h1 h2 => ?_,
    fun table => rfl⟩
  · simp [extract_selected_runs, h]
  · unfold extract_selected_runs
    by_cases ht : table = []
    · subst ht
      refine absurd ?_ h
      unfold resolve_selected
      refine List.filterMap_eq_nil_iff.mpr ?_
      intro idx _
      have hno : ¬ (0 ≤ idx ∧ idx < (([] : List String).length : Int)) := by
        simp only [List.length_nil, Int.natCast_zero]
        omega
      rw [if_neg hno]
    · rw [if_neg ht, if_pos h]
  · unfold extract_selected_runs
    rw [if_neg h1, if_neg (by simp [h2])]

/-- The four filter inputs of `populate_runs` (src/app.py:412-435); a
`None` or empty string is "no criterion" (Python truthiness), modelled as
`""`. -/
structure Criteria where
  search_term : String
  procedure_filter : String
  sample_filter : String
  vial_filter : String
deriving DecidableEq

/-- Case-insensitive substring test used by every filter
(src/app.py:421-435): the lowered criterion occurs in the lowered field. -/
def matchesCI (crit field : String) : Bool := containsSub (strLower crit) (strLower field)

/-- The filtering section of `populate_runs` (src/app.py:419-435): each
non-empty criterion filters the surviving runs by a case-insensitive
substring test on its field, in sequence. -/
def filter_runs (runs : List RunInfo) (c : Criteria) : List RunInfo :=
  let f1 := if c.search_term ≠ "" then
    runs.filter (fun r => matchesCI c.search_term r.name) else runs
  let f2 := if c.procedure_filter ≠ "" then
    f1.filter (fun r => matchesCI c.procedure_filter r.procedure) else f1
  let f3 := if c.sample_filter ≠ "" then
    f2.filter (fun r => matchesCI c.sample_filter r.sample) else f2
  if c.vial_filter ≠ "" then
    f3.filter (fun r => matchesCI c.vial_filter r.vial) else f3

/-- The four filterable fields. -/
inductive JField
  | nameF
  | procF
  | sampleF
  | vialF
deriving DecidableEq

/-- Criterion string for a field. -/
def critOf : JField → Criteria → String
  | .nameF, c => c.search_term
  | .procF, c => c.procedure_filter
  | .sampleF, c => c.sample_filter
  | .vialF, c => c.vial_filter

/-- Run attribute a field's criterion is tested against. -/
def fieldOf : JField → RunInfo → String
  | .nameF, r => r.name
  | .procF, r => r.procedure
  | .sampleF, r => r.sample
  | .vialF, r => r.vial

/-- Whether a run passes one field's criterion. -/
def fieldPasses (fl : JField) (c : Criteria) (r : RunInfo) : Bool :=
  matchesCI (critOf fl c) (fieldOf fl r)

theorem mem_filter_runs (runs : List RunInfo) (c : Criteria) (r : RunInfo) :
    r ∈ filter_runs runs c ↔
      r ∈ runs ∧
      (c.search_term ≠ "" → matchesCI c.search_term r.name = true) ∧
      (c.procedure_filter ≠ "" → matchesCI c.procedure_filter r.procedure = true) ∧
      (c.sample_filter ≠ "" → matchesCI c.sample_filter r.sample = true) ∧
      (c.vial_filter ≠ "" → matchesCI c.vial_filter r.vial = true) := by
  unfold filter_runs
  by_cases h1 : c.search_term ≠ "" <;>
    by_cases h2 : c.procedure_filter ≠ "" <;>
    by_cases h3 : c.sample_filter ≠ "" <;>
    by_cases h4 : c.vial_filter ≠ "" <;>
    simp [h1, h2, h3, h4, List.mem_filter] <;>
    tauto

theorem mem_filter_runs_fields (runs : List RunInfo) (c : Criteria) (r : RunInfo) :
    r ∈ filter_runs runs c ↔
      r ∈ runs ∧ ∀ fl : JField, critOf fl c ≠ "" → fieldPasses fl c r = true := by
  rw [mem_filter_runs]
  constructor
  · rintro ⟨hm, p1, p2, p3, p4⟩
    refine ⟨hm, fun fl => ?_⟩
    cases fl
    · exact p1
    · exact p2
    · exact p3
    · exact p4
  · rintro ⟨hm, hall⟩
    exact ⟨hm, hall JField.nameF, hall JField.procF, hall JField.sampleF, hall JField.vialF⟩

/-- C7: filtering applies every non-empty criterion as an independent
case-insensitive substring test and keeps exactly the runs passing all of
them (logical AND; empty criteria constrain nothing); consequently two
applied criteria that no run satisfies simultaneously leave the result
empty. -/
theorem filterRuns_spec :
    (∀ (runs : List RunInfo) (c : Criteria) (r : RunInfo),
        r ∈ filter_runs runs c ↔
          r ∈ runs ∧ ∀ fl : JField, critOf fl c ≠ "" → fieldPasses fl c r = true) ∧
    (∀ (runs : List RunInfo) (c : Criteria) (f g : JField), f ≠ g →
        critOf f c ≠ "" → critOf g c ≠ "" →
        (∀ r ∈ runs, ¬ (fieldPasses f c r = true ∧ fieldPasses g c r = true)) →
        filter_runs runs c = []) := by
  refine ⟨mem_filter_runs_fields, fun runs c f g _ hf hg hdisj => ?_⟩
  refine List.eq_nil_iff_forall_not_mem.mpr (fun r hr => ?_)
  obtain ⟨hm, hall⟩ := (mem_filter_runs_fields runs c r).mp hr
  exact hdisj r hm ⟨hall f hf, hall g hg⟩
